import Mathlib

/-!
Verification development for the repeater-list converter in rpt2ogd77.py.

The script reads repeater records, derives radio channels from them,
disambiguates channel display names, merges externally supplied custom
channels, sorts and numbers the generated channels, and finally buckets the
emitted channel rows into zones.  Every definition below is a shallow
embedding of the corresponding place in the source file; Python exceptions
(IndexError, ValueError, KeyError, decimal.InvalidOperation) are modelled by
Option, with none standing for an uncaught exception aborting the run.
Strings are modelled by Lean String (a list of unicode code points, matching
Python str for the code points the program manipulates); str.isnumeric and
int() are modelled on ASCII digits.
-/

/-- Index of the district numeral inside a channel name (DN_OFF in the source). -/
def DN_OFF : Nat := 2

/-- Valid district numerals for SM (line 10 of the source). -/
def validDistricts : List Int := [0, 1, 2, 3, 4, 5, 6, 7]

/-! ### Python string primitives -/

/-- First index at which sub occurs inside hay, as Python str.find;
none models the -1 result. -/
def findSub : List Char → List Char → Option Nat
  | [], sub => if sub.isEmpty then some 0 else none
  | c :: rest, sub =>
    if sub.isPrefixOf (c :: rest) then some 0
    else (findSub rest sub).map (· + 1)

/-- Python substring containment, the in operator on str. -/
def containsSub (hay sub : String) : Bool :=
  (findSub hay.data sub.data).isSome

/-- Last index at which character c occurs, as Python str.rfind for a
one-character needle; none models the -1 result. -/
def rfindChar : List Char → Char → Option Nat
  | [], _ => none
  | a :: rest, c =>
    match rfindChar rest c with
    | some j => some (j + 1)
    | none => if a = c then some 0 else none

/-- Python str.replace(old, new, 1) for one-character old and new. -/
def replaceFirstChar : List Char → Char → Char → List Char
  | [], _, _ => []
  | a :: rest, old, new =>
    if a = old then new :: rest else a :: replaceFirstChar rest old new

/-- Python str.replace(old, new) replacing every non-overlapping occurrence,
scanning left to right.  The fuel argument is an upper bound on the number of
scan steps (each step consumes at least one character), kept structural so
the kernel can evaluate the function. -/
def replaceSubAllAux (sub repl : List Char) : Nat → List Char → List Char
  | 0, l => l
  | fuel + 1, l =>
    match l with
    | [] => []
    | c :: rest =>
      if sub ≠ [] ∧ sub.isPrefixOf (c :: rest) then
        repl ++ replaceSubAllAux sub repl fuel (rest.drop (sub.length - 1))
      else
        c :: replaceSubAllAux sub repl fuel rest

/-- Python str.replace(old, new) on a whole list, with enough fuel for the
whole scan. -/
def replaceSubAll (sub repl l : List Char) : List Char :=
  replaceSubAllAux sub repl l.length l

/-- Python str.strip(): drop whitespace from both ends. -/
def pyStrip (l : List Char) : List Char :=
  ((l.dropWhile Char.isWhitespace).reverse.dropWhile Char.isWhitespace).reverse

/-- str.strip() on String values. -/
def pyStripS (s : String) : String := ⟨pyStrip s.data⟩

/-- Python str.isnumeric restricted to ASCII digits: nonempty and all digits. -/
def pyIsNumeric (l : List Char) : Bool :=
  !l.isEmpty && l.all Char.isDigit

/-- Value of a list of ASCII digits. -/
def digitsToNat (l : List Char) : Nat :=
  l.foldl (fun n c => n * 10 + (c.toNat - 48)) 0

/-- Python int() on a string, modelled for an optional leading sign followed
by ASCII digits; none models ValueError. -/
def pyInt (s : String) : Option Int :=
  match s.data with
  | '-' :: rest => if pyIsNumeric rest then some (-(digitsToNat rest : Int)) else none
  | '+' :: rest => if pyIsNumeric rest then some ((digitsToNat rest : Int)) else none
  | l => if pyIsNumeric l then some ((digitsToNat l : Int)) else none

/-! ### Exact decimals (Python decimal.Decimal as used by the script) -/

/-- An exact decimal number: mant / 10 ^ exp.  Mirrors the coefficient and
(negated) exponent of a Python Decimal produced from a plain literal. -/
structure Dec where
  mant : Int
  exp : Nat
deriving DecidableEq

/-- Rational value of a decimal, used only in proofs about ordering. -/
def Dec.val (d : Dec) : ℚ := (d.mant : ℚ) / (10 : ℚ) ^ d.exp

/-- Decimal constructor from a string: optional minus sign, integer digits,
optional fraction.  Models Decimal(str) on the plain decimal literals the
script can feed it; none models decimal.InvalidOperation. -/
def parseDec (s : String) : Option Dec :=
  let (neg, l1) :=
    match s.data with
    | '-' :: rest => (true, rest)
    | l => (false, l)
  let ip := l1.takeWhile Char.isDigit
  let sign : Int := if neg then -1 else 1
  match l1.drop ip.length with
  | [] => if ip.isEmpty then none else some ⟨sign * digitsToNat ip, 0⟩
  | '.' :: fp =>
    if fp.all Char.isDigit && !(ip.isEmpty && fp.isEmpty) then
      some ⟨sign * digitsToNat (ip ++ fp), fp.length⟩
    else none
  | _ => none

/-- Decimal addition: align to the larger number of fractional digits, as
Python Decimal addition does (result exponent is the smaller exponent). -/
def Dec.add (a b : Dec) : Dec :=
  let e := max a.exp b.exp
  ⟨a.mant * (10 : Int) ^ (e - a.exp) + b.mant * (10 : Int) ^ (e - b.exp), e⟩

/-- str(Decimal) for the non-scientific range the script stays in: sign,
integer digits, and exactly exp fractional digits when exp is nonzero. -/
def Dec.toStr (d : Dec) : String :=
  let sign : String := if d.mant < 0 then "-" else ""
  let a := d.mant.natAbs
  if d.exp = 0 then sign ++ Nat.repr a
  else
    let fs := Nat.repr (a % 10 ^ d.exp)
    sign ++ Nat.repr (a / 10 ^ d.exp) ++ "." ++ ⟨List.replicate (d.exp - fs.length) '0'⟩ ++ fs

/-- Python Decimal comparison is by numeric value; cross-multiplied integer
form so that it evaluates by kernel reduction. -/
def decLt (a b : Dec) : Bool :=
  decide (a.mant * (10 : Int) ^ b.exp < b.mant * (10 : Int) ^ a.exp)

/-! ### Data model -/

/-- One row of the input repeater registry (repeaters.csv). -/
structure Record where
  district : String
  type : String
  status : String
  mode : String
  band : String
  call : String
  city : String
  output : String
  tx_shift : String
  access : String
  network : String
  lat : String
  lng : String
deriving DecidableEq

/-- Command-line configuration consumed by the core: optional home district
and optional skip-district list (argparse gives none when absent). -/
structure Config where
  home : Option Int := none
  allskip : Option (List Int) := none
deriving DecidableEq

/-- A derived channel as the dict built in lines 77-153: mode-specific keys
absent from the dict are none. -/
structure Channel where
  chType : String
  rxFreq : String
  txFreq : String
  colourCode : Option String := none
  timeslot : Option Nat := none
  tgList : Option String := none
  dmrId : Option String := none
  ts1 : Option String := none
  ts2 : Option String := none
  bandwidth : Option String := none
  rxTone : Option String := none
  txTone : Option String := none
  squelch : Option String := none
  power : String
  rxOnly : String
  zoneSkip : String
  allSkip : String
  tot : String
  vox : String
  noBeep : String
  noEco : String
  aprs : String
  lat : String
  lng : String
deriving DecidableEq

/-- Record filter, lines 73-76: QRV repeaters in single-character districts,
FM or DMR, on the 2m or 70cm band. -/
def accepts (r : Record) : Bool :=
  r.district.length = 1 && containsSub r.type ("Repeater") && containsSub r.status ("QRV")
    && (containsSub r.mode ("DMR") || containsSub r.mode ("FM"))
    && (r.band = "2" || r.band = "70")

/-- Truthiness of the allskip argument (a Python list: empty or None is falsy). -/
def skipTruthy (cfg : Config) : Bool :=
  match cfg.allskip with
  | some l => !l.isEmpty
  | none => false

/-- The All Skip decision of line 143: args.home != None is a None test (so a
home district of 0 counts as configured here), while the allskip side uses
list truthiness. -/
def allSkipFlag (cfg : Config) (district : Int) : Bool :=
  (cfg.home.isSome && district != cfg.home.getD 0)
    || (skipTruthy cfg && (cfg.allskip.getD []).contains district)

/-- Python truthiness of the home argument as used by the validation code
(lines 35 and 39): the integer 0 is falsy. -/
def homeTruthy (cfg : Config) : Bool :=
  match cfg.home with
  | some h => h != 0
  | none => false

/-- Argument validation, lines 30-41: reject invalid skip districts, the
home/allskip combination, and invalid home districts.  Returns false when the
script calls sys.exit before creating any output file.  Note both home tests
use Python truthiness, so a home district of 0 skips them. -/
def validateArgs (cfg : Config) : Bool :=
  if skipTruthy cfg && (cfg.allskip.getD []).any (fun s => !validDistricts.contains s) then
    false
  else if skipTruthy cfg && homeTruthy cfg then
    false
  else if homeTruthy cfg && !validDistricts.contains (cfg.home.getD 0) then
    false
  else
    true

/-- Try the CTCSS tone pattern, digits dot digit, at the head of the list;
the digit run is taken greedily as the regular expression engine does. -/
def toneAt (l : List Char) : Option (List Char) :=
  let ds := l.takeWhile Char.isDigit
  if ds.isEmpty then none
  else
    match l.drop ds.length with
    | '.' :: d :: _ => if d.isDigit then some (ds ++ ['.', d]) else none
    | _ => none

/-- Leftmost position at which the tone pattern matches, as re.search. -/
def toneSearch : List Char → Option (List Char)
  | [] => none
  | c :: rest =>
    match toneAt (c :: rest) with
    | some m => some m
    | none => toneSearch rest

/-- First match of the tone regular expression in the access descriptor, or
the empty string when there is none (lines 131-133). -/
def toneOf (l : List Char) : String :=
  match toneSearch l with
  | some m => ⟨m⟩
  | none => ""

/-- Callsign normalization of lines 79-86: replace the regional zero glyph
and truncate at the first slash and the first dash. -/
def fixedCallsign (r : Record) : List Char :=
  let callsign0 := r.call.data.map (fun c => if c = 'Ø' then '0' else c)
  let callsign1 :=
    match findSub callsign0 ['/'] with
    | some i => callsign0.take i
    | none => callsign0
  match findSub callsign1 ['-'] with
  | some i => callsign1.take i
  | none => callsign1

/-- City normalization of lines 88-91: strip, truncate at the first space
slash, and abbreviate the Upplands prefix. -/
def fixedCity (r : Record) : List Char :=
  let city0 := pyStrip r.city.data
  let city1 :=
    match findSub city0 [' ', '/'] with
    | some i => city0.take i
    | none => city0
  replaceSubAll ("Upplands ").data ("U.").data city1

/-- The band label of line 94. -/
def bandLabel (r : Record) : String :=
  if r.band.data.contains '2' then ("2m") else ("70cm")

/-- The proposed display name of line 95: callsign, city and band label
joined by spaces, truncated to 16 characters, stripped. -/
def proposedName (r : Record) : String :=
  ⟨pyStrip ((fixedCallsign r ++ [' '] ++ fixedCity r ++ [' '] ++ (bandLabel r).data).take 16)⟩

/-- Channel derivation, lines 77-153: builds the proposed display name and the
channel dict from one accepted record.  none models an uncaught exception
(IndexError on a short name at line 98, ValueError from int() at line 101,
InvalidOperation from Decimal() at lines 108-109). -/
def deriveChannel (cfg : Config) (r : Record) : Option (String × Channel) :=
  let name : String := proposedName r
  match name.data.get? DN_OFF with
  | none => none
  | some _ =>
    match pyInt r.district with
    | none => none
    | some district =>
      let chTy := if containsSub r.mode ("DMR") then ("Digital") else ("Analogue")
      let shiftGuard := (r.tx_shift.data.filter (fun c => c ≠ '.')).filter (fun c => c ≠ '-')
      let offsetRes : Option Dec :=
        if pyIsNumeric shiftGuard then parseDec r.tx_shift else some ⟨0, 0⟩
      match offsetRes, parseDec r.output with
      | some offset, some outDec =>
        let base : Channel :=
          { chType := chTy
            rxFreq := r.output
            txFreq := (Dec.add outDec offset).toStr
            power := ("Master")
            rxOnly := ("No")
            zoneSkip := ("No")
            allSkip := if allSkipFlag cfg district then ("Yes") else ("No")
            tot := ("0")
            vox := ("Off")
            noBeep := ("No")
            noEco := ("No")
            aprs := ("None")
            lat := ⟨r.lat.data.map (fun c => if c = '.' then ',' else c)⟩
            lng := ⟨r.lng.data.map (fun c => if c = '.' then ',' else c)⟩ }
        let ch :=
          if chTy = "Digital" then
            match findSub r.access.data (['C', 'C']) with
            | some ccIdx =>
              let net :=
                if !containsSub r.network ("BM") then r.network else ("Brandmeister")
              { base with
                colourCode := some ⟨(r.access.data.drop (ccIdx + 3)).take 2⟩
                timeslot := some 1
                tgList := some (if !containsSub net ("Brandmeister") then net else ("Brandmeister"))
                dmrId := some ("None")
                ts1 := some ("Off")
                ts2 := some ("Off") }
            | none => base
          else
            { base with
              bandwidth := some ("12.5")
              rxTone := some (toneOf r.access.data)
              txTone := some (toneOf r.access.data)
              squelch := some ("Disabled") }
        some (name, ch)
      | _, _ => none

/-- The mode string computed at line 157 from the channel type. -/
def modeOf (ch : Channel) : String :=
  if ch.chType = "Digital" then ("DMR") else ("FM")

/-- One iteration of the name disambiguation cascade, lines 156-188: strip a
band token, append a mode tag or letter, substitute separators, or as a last
resort drop the last two characters and strip. -/
def nameStep (mode : String) (name : String) : String :=
  let l := name.data
  if containsSub name (" 7") || containsSub ⟨l.drop 10⟩ (" 2") then
    match rfindChar l ' ' with
    | some i => ⟨l.take i⟩
    | none => ⟨l.take (l.length - 1)⟩
  else if l.length < 15 then ⟨(l ++ [' '] ++ mode.data).take 16⟩
  else if l.length < 16 then
    if mode = "FM" then ⟨l ++ ['A']⟩ else ⟨l ++ ['D']⟩
  else if l.contains ' ' then ⟨replaceFirstChar l ' ' '_'⟩
  else if l.contains '_' then ⟨replaceFirstChar l '_' '.'⟩
  else if l.contains '.' then ⟨replaceFirstChar l '.' '-'⟩
  else if l.contains '-' then ⟨replaceFirstChar l '-' '/'⟩
  else ⟨pyStrip (l.take (l.length - 2))⟩

/-- The while-loop of line 156, made total with a fuel argument: none means
the loop has not exited within fuel iterations (in particular, a result of
none for every fuel means the Python loop never terminates). -/
def disambiguate (fuel : Nat) (name : String) (taken : List String) (mode : String) :
    Option String :=
  match fuel with
  | 0 => none
  | fuel + 1 =>
    if name ∈ taken then disambiguate fuel (nameStep mode name) taken mode
    else some name

/-- The record loop of lines 69-191: filter each record, derive a channel,
disambiguate its name against the names registered so far, and append it to
the registry (Python dicts preserve insertion order, and the loop exit
guarantees the key is fresh). -/
def processRecords (fuel : Nat) (cfg : Config) :
    List Record → List (String × Channel) → Option (List (String × Channel))
  | [], acc => some acc
  | r :: rs, acc =>
    if accepts r then
      match deriveChannel cfg r with
      | none => none
      | some (n, ch) =>
        match disambiguate fuel n (acc.map Prod.fst) (modeOf ch) with
        | none => none
        | some nm => processRecords fuel cfg rs (acc ++ [(nm, ch)])
    else processRecords fuel cfg rs acc

/-! ### Custom channels and emission -/

/-- An externally supplied custom channel row, keeping the fields the script
later reads back (the remaining 23 fields pass through unmodified and are
never consulted). -/
structure CustomRow where
  number : String
  name : String
  chType : String
  rxFreq : String
deriving DecidableEq

/-- Custom channel ingestion, lines 58-65: int() on the channel number (a
failure aborts, anything above 499 only warns), and the name truncated to 16
characters and stripped before the row is written out. -/
def processCustom : List CustomRow → Option (List CustomRow)
  | [] => some []
  | r :: rs =>
    match pyInt r.number with
    | none => none
    | some _ =>
      (processCustom rs).map (fun rest => { r with name := ⟨pyStrip (r.name.data.take 16)⟩ } :: rest)

/-- Sort key of line 195: channel type, character at DN_OFF of the name, and
the receive frequency as a Decimal.  none models the IndexError or
InvalidOperation raised while evaluating the key. -/
def chanKey (nc : String × Channel) : Option (String × Char × Dec) :=
  match nc.1.data.get? DN_OFF, parseDec nc.2.rxFreq with
  | some c, some d => some (nc.2.chType, c, d)
  | _, _ => none

/-- Python tuple comparison of two sort keys: compare component values for
equality left to right and decide with the first unequal component (strings
by code point, characters by code point, decimals by numeric value). -/
def keyLt (x y : String × Char × Dec) : Bool :=
  if x.1 = y.1 then
    if x.2.1 = y.2.1 then decLt x.2.2 y.2.2
    else decide (x.2.1 < y.2.1)
  else decide (x.1.data < y.1.data)

/-- Insert an element into a sorted list, before the first element it is not
greater than; combined with insSort this reproduces the unique stable sort
that Python sorted computes. -/
def insertPre (lt : α → α → Bool) (x : α) : List α → List α
  | [] => [x]
  | y :: ys => if lt y x then y :: insertPre lt x ys else x :: y :: ys

/-- Stable insertion sort. -/
def insSort (lt : α → α → Bool) : List α → List α
  | [] => []
  | x :: xs => insertPre lt x (insSort lt xs)

/-- Sort the registered channels by the composite key of line 195; none
models a crash while computing a key. -/
def sortChannels (gen : List (String × Channel)) :
    Option (List (String × Channel)) :=
  match gen.mapM (fun nc => (chanKey nc).map (fun k => (nc, k))) with
  | none => none
  | some keyed => some ((insSort (fun a b => keyLt a.2 b.2) keyed).map (fun p => p.1))

/-- Sequential channel numbers of lines 194-199: the counter starts at 500
and is incremented before each assignment. -/
def assignIds (start : Nat) : List α → List (Nat × α)
  | [] => []
  | a :: rest => (start + 1, a) :: assignIds (start + 1) rest

/-- The channel half of the pipeline: ingest custom rows, process the
records, sort the generated channels and number them from 501. -/
def runChannels (fuel : Nat) (cfg : Config) (customRows : Option (List CustomRow))
    (records : List Record) :
    Option (List CustomRow × List (Nat × String × Channel)) :=
  match (match customRows with
         | none => some []
         | some rows => processCustom rows) with
  | none => none
  | some cust =>
    match processRecords fuel cfg records [] with
    | none => none
    | some gen =>
      match sortChannels gen with
      | none => none
      | some sortedGen => some (cust, assignIds 500 sortedGen)

/-- One row of the emitted channel list as the zone pass later reads it back:
channel number, name, type and receive frequency (the CSV round trip
preserves these fields verbatim). -/
structure EmitRow where
  num : String
  name : String
  chType : String
  rxFreq : String
deriving DecidableEq

/-- The emitted channel list: custom rows first in their original order
(lines 58-65 write them before the record loop runs), then the sorted and
numbered generated rows (lines 194-201). -/
def emittedRows (cust : List CustomRow) (genOut : List (Nat × String × Channel)) :
    List EmitRow :=
  cust.map (fun c => ⟨c.number, c.name, c.chType, c.rxFreq⟩)
    ++ genOut.map (fun t => ⟨Nat.repr t.1, t.2.1, t.2.2.chType, t.2.2.rxFreq⟩)

/-! ### Zones -/

/-- Zone membership state: the fixed catalog of lines 203-210 in creation
order, each zone with its member list. -/
def zonesInit : List (String × List String) :=
  [(("All 2m DMR"), []), (("All 70cm DMR"), [])]
    ++ ((List.range 8).map (fun d =>
        [("SM" ++ Nat.repr d ++ " All Channels", ([] : List String)),
         ("SM" ++ Nat.repr d ++ " Analogue", []),
         ("SM" ++ Nat.repr d ++ " DMR", [])])).flatten

/-- zones[key].append(v): appends to the zone when the key exists (zone keys
are unique, so updating the first occurrence is the dict update), and models
the KeyError with none when the key does not exist. -/
def zoneAppend : List (String × List String) → String → String →
    Option (List (String × List String))
  | [], _, _ => none
  | p :: rest, key, v =>
    if p.1 = key then some ((p.1, p.2 ++ [v]) :: rest)
    else (zoneAppend rest key v).map (fun r => p :: r)

/-- Member list of a zone in a state. -/
def zmembers : List (String × List String) → String → List String
  | [], _ => []
  | p :: rest, z => if p.1 = z then p.2 else zmembers rest z

/-- Zone population for one emitted channel row, lines 216-236: strip the
name, take its district character (IndexError when the name is shorter than
three characters), and if that character is a digit append the name to the
per-district zones and, for digital channels, to the band-wide DMR zones
keyed on the first character of the receive frequency. -/
def zoneStep (st : List (String × List String)) (row : EmitRow) :
    Option (List (String × List String)) :=
  let name := pyStripS row.name
  match name.data.get? DN_OFF with
  | none => none
  | some d =>
    let mode := if containsSub row.chType ("Digital") then ("DMR") else ("Analogue")
    if d.isDigit then
      match zoneAppend st ("SM" ++ ⟨[d]⟩ ++ " " ++ mode) name with
      | none => none
      | some st1 =>
        match zoneAppend st1 ("SM" ++ ⟨[d]⟩ ++ " All Channels") name with
        | none => none
        | some st2 =>
          if mode = "DMR" then
            match row.rxFreq.data.get? 0 with
            | none => none
            | some c =>
              match (if c = '1' then zoneAppend st2 ("All 2m DMR") name else some st2) with
              | none => none
              | some st3 =>
                if c = '4' then zoneAppend st3 ("All 70cm DMR") name else some st3
          else some st2
    else some st

/-- The zone population loop over the whole emitted channel list. -/
def zonePass (rows : List EmitRow) : Option (List (String × List String)) :=
  rows.foldlM zoneStep zonesInit

/-- String of n semicolons, as the Python repetition operator (negative
counts give the empty string, matching Nat subtraction at the call site). -/
def semis (n : Nat) : String := ⟨List.replicate n ';'⟩

/-- Semicolon join as str.join. -/
def joinSemi : List String → String
  | [] => ""
  | [s] => s
  | s :: rest => s ++ ";" ++ joinSemi rest

/-- One emitted zone row, lines 254-257: the zone name and its members joined
by semicolons, padded with 81 - (1 + members) further semicolons, and a
carriage-return line-feed terminator. -/
def zoneRowStr (zname : String) (members : List String) : String :=
  joinSemi (zname :: members) ++ semis (81 - (zname :: members).length) ++ "\r\n"

/-- The emitted zone artifact body, lines 251-257: one row per zone with a
nonempty member list, in catalog order. -/
def zonesOut (st : List (String × List String)) : String :=
  (st.foldl (fun acc p => if p.2.isEmpty then acc else acc ++ zoneRowStr p.1 p.2) "")

/-- The full pipeline: channel emission followed by the zone pass over the
re-read channel list, returning the emitted channel rows and the zone
artifact body. -/
def runAll (fuel : Nat) (cfg : Config) (customRows : Option (List CustomRow))
    (records : List Record) : Option (List EmitRow × String) :=
  match runChannels fuel cfg customRows records with
  | none => none
  | some (cust, genOut) =>
    let rows := emittedRows cust genOut
    match zonePass rows with
    | none => none
    | some st => some (rows, zonesOut st)

/-- Embedding of a sort key into a lexicographic product of linear orders,
matching Python tuple comparison. -/
def keyVal (k : String × Char × Dec) : Lex ((List Char) × Lex (Char × ℚ)) :=
  toLex (k.1.data, toLex (k.2.1, k.2.2.val))

/-- Number of semicolons in a string; an emitted zone row with n semicolons
before its terminator consists of n + 1 fields. -/
def countSemis (s : String) : Nat :=
  (s.data.filter (fun c => c = ';')).length

/-- Empty configuration: no home district, no skip list. -/
def cfg0 : Config := {}

/-- The concrete record of the specification scenario: district 3, an FM
repeater on 2m with a zero glyph in the callsign and a slash suffix on the
city. -/
def r9 : Record :=
  { district := "3", type := "Repeater", status := "QRV", mode := "FM", band := "2",
    call := "SK3ØA", city := "Uppland /X", output := "145.600", tx_shift := "-0.600",
    access := "67.0", network := "", lat := "59.8", lng := "17.6" }

/-- The channel the scenario record derives to. -/
def ch9 : Channel :=
  { chType := "Analogue", rxFreq := "145.600", txFreq := "145.000",
    bandwidth := some ("12.5"), rxTone := some ("67.0"), txTone := some ("67.0"),
    squelch := some ("Disabled"), power := "Master", rxOnly := "No", zoneSkip := "No",
    allSkip := "No", tot := "0", vox := "Off", noBeep := "No", noEco := "No",
    aprs := "None", lat := "59,8", lng := "17,6" }

/-- A second accepted record, digital on 70cm in district 6, used to exercise
the sorting and zone passes. -/
def rB : Record :=
  { district := "6", type := "Repeater", status := "QRV", mode := "DMR", band := "70",
    call := "SK6BA", city := "Town", output := "434.600", tx_shift := "-2.000",
    access := "CC: 1", network := "BMnet", lat := "57.7", lng := "11.9" }

/-- The channel the second record derives to: digital, colour code parsed
from the access descriptor, Brandmeister talkgroup list. -/
def chB : Channel :=
  { chType := "Digital", rxFreq := "434.600", txFreq := "432.600",
    colourCode := some (" 1"), timeslot := some 1, tgList := some ("Brandmeister"),
    dmrId := some ("None"), ts1 := some ("Off"), ts2 := some ("Off"),
    power := "Master", rxOnly := "No", zoneSkip := "No", allSkip := "No",
    tot := "0", vox := "Off", noBeep := "No", noEco := "No", aprs := "None",
    lat := "57,7", lng := "11,9" }

/-- A record that passes the filter (its district field has length one) but
whose district is not a digit. -/
def rX : Record :=
  { district := "X", type := "Repeater", status := "QRV", mode := "FM", band := "2",
    call := "SK3ØA", city := "Uppland", output := "145.600", tx_shift := "-0.600",
    access := "67.0", network := "", lat := "59.8", lng := "17.6" }

/-- An accepted record whose transmit shift passes the numeric guard of line
108 (removing dots and dashes leaves the digits 123) but is not a well-formed
decimal literal. -/
def r3bad : Record :=
  { r9 with tx_shift := "1.2.3" }

/-- Taken-name set on which the disambiguation cascade cycles forever for a
digital channel: the last-resort shortening of the slash variant recreates
the original fourteen-character name. -/
def cycTaken : List String :=
  [("ABCDEFGHIJKLMN"), ("ABCDEFGHIJKLMN D"), ("ABCDEFGHIJKLMN_D"),
   ("ABCDEFGHIJKLMN.D"), ("ABCDEFGHIJKLMN-D"), ("ABCDEFGHIJKLMN/D")]

/-- A custom channel row; two identical copies of it exhibit the absence of
any cross-row name check on the custom file. -/
def custDup : CustomRow :=
  { number := "10", name := "DUPLICATE NAME", chType := "Analogue", rxFreq := "145.500" }

/-- An emitted channel row whose name has the digit 8 at the district offset:
the zone catalog has no SM8 zones, so the zone pass raises KeyError on it. -/
def row8 : EmitRow :=
  { num := "1", name := "XX8NAME", chType := "Digital", rxFreq := "434.600" }

/-- The emitted row of the digital 70cm channel, as the zone pass reads it. -/
def rowB : EmitRow :=
  { num := "502", name := "SK6BA Town 70cm", chType := "Digital", rxFreq := "434.600" }

/-! ### Order lemmas for the composite sort key -/

theorem decLt_iff (a b : Dec) : decLt a b = true ↔ a.val < b.val := by
  rcases a with ⟨ma, ea⟩
  
  rcases b with ⟨mb, eb⟩
  simp only [decLt, decide_eq_true_eq, Dec.val]
  rw [div_lt_div_iff₀ (by positivity) (by positivity)]
  constructor
  · intro h; exact_mod_cast h
  · intro h; exact_mod_cast h

theorem keyLt_iff (x y : String × Char × Dec) :
    keyLt x y = true ↔ keyVal x < keyVal y := by
  rcases x with ⟨xs, xc, xd⟩
  rcases y with ⟨ys, yc, yd⟩
  simp only [keyLt, keyVal, Prod.Lex.lt_iff]
  by_cases hs : xs = ys
  · subst hs
    by_cases hc : xc = yc
    · subst hc
      simp [decLt_iff, Prod.Lex.lt_iff]
    · have hc2 : ¬ (xc : Char) = yc := hc
      simp [hc2, Prod.Lex.lt_iff, decide_eq_true_eq]
  · have hs2 : ¬ xs.data = ys.data := fun hh => hs (String.ext_iff.mpr hh)
    simp [hs, hs2, decide_eq_true_eq]

theorem keyLt_asymm (x y : String × Char × Dec) (h : keyLt x y = true) :
    keyLt y x = false := by
  rcases hxy : keyLt y x with _ | _
  · rfl
  · exact absurd (keyLt_iff x y |>.mp h) (lt_asymm (keyLt_iff y x |>.mp hxy))

theorem keyLt_conn (a b c : String × Char × Dec) (h : keyLt c a = true) :
    keyLt c b = true ∨ keyLt b a = true := by
  rcases lt_or_le (keyVal c) (keyVal b) with hlt | hle
  · exact Or.inl ((keyLt_iff c b).mpr hlt)
  · exact Or.inr ((keyLt_iff b a).mpr (lt_of_le_of_lt hle ((keyLt_iff c a).mp h)))

/-! ### Insertion sort lemmas -/

theorem insertPre_perm (lt : α → α → Bool) (x : α) (l : List α) :
    (insertPre lt x l).Perm (x :: l) := by
  induction l with
  | nil => simp [insertPre]
  | cons y ys ih =>
    simp only [insertPre]
    by_cases h : lt y x = true
    · rw [if_pos h]
      exact ((ih.cons y).trans (List.Perm.swap x y ys))
    · rw [if_neg h]

theorem insSort_perm (lt : α → α → Bool) (l : List α) : (insSort lt l).Perm l := by
  induction l with
  | nil => simp [insSort]
  | cons x xs ih =>
    exact ((insertPre_perm lt x (insSort lt xs)).trans (ih.cons x))

theorem mem_insertPre (lt : α → α → Bool) (x z : α) (l : List α) :
    z ∈ insertPre lt x l ↔ z = x ∨ z ∈ l := by
  constructor
  · intro h
    have := (insertPre_perm lt x l).mem_iff.mp h
    simpa using this
  · intro h
    apply (insertPre_perm lt x l).mem_iff.mpr
    simpa using h

theorem insertPre_pairwise (lt : α → α → Bool)
    (hasymm : ∀ a b, lt a b = true → lt b a = false)
    (hconn : ∀ a b c, lt c a = true → lt c b = true ∨ lt b a = true)
    (x : α) (l : List α) (hp : l.Pairwise (fun a b => lt b a = false)) :
    (insertPre lt x l).Pairwise (fun a b => lt b a = false) := by
  induction l with
  | nil => simp [insertPre]
  | cons y ys ih =>
    rcases hp with _ | ⟨hy, hys⟩
    simp only [insertPre]
    by_cases h : lt y x = true
    · rw [if_pos h]
      refine List.Pairwise.cons ?_ (ih hys)
      intro z hz
      rcases (mem_insertPre lt x z ys).mp hz with rfl | hzys
      · exact hasymm y z h
      · exact hy z hzys
    · rw [if_neg h]
      refine List.Pairwise.cons ?_ (List.Pairwise.cons hy hys)
      intro z hz
      rcases List.mem_cons.mp hz with rfl | hzys
      · exact Bool.eq_false_iff.mpr h
      · cases hzx : lt z x with
        | false => rfl
        | true =>
          exfalso
          rcases hconn x y z hzx with hzy | hyx
          · have hf := hy z hzys
            rw [hf] at hzy
            exact Bool.false_ne_true hzy
          · exact h hyx

theorem insSort_pairwise (lt : α → α → Bool)
    (hasymm : ∀ a b, lt a b = true → lt b a = false)
    (hconn : ∀ a b c, lt c a = true → lt c b = true ∨ lt b a = true)
    (l : List α) :
    (insSort lt l).Pairwise (fun a b => lt b a = false) := by
  induction l with
  | nil => simp [insSort]
  | cons x xs ih => exact insertPre_pairwise lt hasymm hconn x (insSort lt xs) ih

/-! ### Helper lemmas on the building blocks -/

theorem length_replaceFirstChar (l : List Char) (old new : Char) :
    (replaceFirstChar l old new).length = l.length := by
  induction l with
  | nil => rfl
  | cons a rest ih =>
    simp only [replaceFirstChar]
    by_cases h : a = old
    · rw [if_pos h]; rfl
    · rw [if_neg h]; simpa using ih

theorem pyStrip_length_le (l : List Char) : (pyStrip l).length ≤ l.length := by
  have h1 : (l.dropWhile Char.isWhitespace).Sublist l := List.dropWhile_sublist _
  have h2 : ((l.dropWhile Char.isWhitespace).reverse.dropWhile Char.isWhitespace).Sublist
      (l.dropWhile Char.isWhitespace).reverse := List.dropWhile_sublist _
  have h3 := h1.length_le
  have h4 := h2.length_le
  simp only [pyStrip, List.length_reverse] at h4 ⊢
  omega

theorem length_mkString (l : List Char) : (String.mk l).length = l.length := rfl

theorem nameStep_len (mode name : String) (h : name.length ≤ 16) :
    (nameStep mode name).length ≤ 16 := by
  have hdata : name.data.length ≤ 16 := h
  have htake : ∀ n : Nat, (name.data.take n).length ≤ name.data.length := by
    intro n; rw [List.length_take]; omega
  simp only [nameStep]
  split
  · split
    · exact le_trans (htake _) hdata
    · exact le_trans (htake _) hdata
  · split
    · simp only [length_mkString, List.length_take]
      omega
    · split
      · split
        · simp only [length_mkString, List.length_append, List.length_cons, List.length_nil]
          omega
        · simp only [length_mkString, List.length_append, List.length_cons, List.length_nil]
          omega
      · split
        · simp only [length_mkString, length_replaceFirstChar]; exact hdata
        · split
          · simp only [length_mkString, length_replaceFirstChar]; exact hdata
          · split
            · simp only [length_mkString, length_replaceFirstChar]; exact hdata
            · split
              · simp only [length_mkString, length_replaceFirstChar]; exact hdata
              · have h5 := pyStrip_length_le (name.data.take (name.data.length - 2))
                have h6 := htake (name.data.length - 2)
                simp only [length_mkString]
                omega

theorem disambiguate_fresh (fuel : Nat) (name : String) (taken : List String)
    (mode r : String) (h : disambiguate fuel name taken mode = some r) : r ∉ taken := by
  induction fuel generalizing name with
  | zero => simp [disambiguate] at h
  | succ fuel ih =>
    simp only [disambiguate] at h
    by_cases hmem : name ∈ taken
    · rw [if_pos hmem] at h
      exact ih _ h
    · rw [if_neg hmem] at h
      cases h
      exact hmem

theorem disambiguate_len (fuel : Nat) (name : String) (taken : List String)
    (mode r : String) (hlen : name.length ≤ 16)
    (h : disambiguate fuel name taken mode = some r) : r.length ≤ 16 := by
  induction fuel generalizing name with
  | zero => simp [disambiguate] at h
  | succ fuel ih =>
    simp only [disambiguate] at h
    by_cases hmem : name ∈ taken
    · rw [if_pos hmem] at h
      exact ih _ (nameStep_len mode name hlen) h
    · rw [if_neg hmem] at h
      cases h
      exact hlen

theorem proposedName_len (r : Record) : (proposedName r).length ≤ 16 := by
  have h1 := pyStrip_length_le
    ((fixedCallsign r ++ [' '] ++ fixedCity r ++ [' '] ++ (bandLabel r).data).take 16)
  have h2 : ((fixedCallsign r ++ [' '] ++ fixedCity r ++ [' '] ++ (bandLabel r).data).take
      16).length ≤ 16 := by
    rw [List.length_take]; omega
  simp only [proposedName, length_mkString]
  omega

theorem deriveChannel_name (cfg : Config) (r : Record) (n : String) (ch : Channel)
    (h : deriveChannel cfg r = some (n, ch)) : n = proposedName r := by
  simp only [deriveChannel] at h
  split at h
  · exact Option.noConfusion h
  · split at h
    · exact Option.noConfusion h
    · split at h
      · simp only [Option.some.injEq, Prod.mk.injEq] at h
        exact h.1.symm
      · exact Option.noConfusion h

theorem assignIds_map_fst (start : Nat) (l : List α) :
    (assignIds start l).map Prod.fst = List.range' (start + 1) l.length := by
  induction l generalizing start with
  | nil => rfl
  | cons a rest ih =>
    simp only [assignIds, List.map_cons, List.length_cons, List.range'_succ]
    rw [ih]

theorem assignIds_map_snd (start : Nat) (l : List α) :
    (assignIds start l).map Prod.snd = l := by
  induction l generalizing start with
  | nil => rfl
  | cons a rest ih =>
    simp only [assignIds, List.map_cons]
    rw [ih]

theorem mapM_chanKey (gen : List (String × Channel))
    (keyed : List ((String × Channel) × (String × Char × Dec)))
    (h : gen.mapM (fun nc => (chanKey nc).map (fun k => (nc, k))) = some keyed) :
    keyed.map Prod.fst = gen ∧ ∀ p ∈ keyed, chanKey p.1 = some p.2 := by
  induction gen generalizing keyed with
  | nil =>
    simp only [List.mapM_nil, pure, Option.some.injEq] at h
    subst h
    simp
  | cons nc rest ih =>
    rw [List.mapM_cons] at h
    cases hk : chanKey nc with
    | none => rw [hk] at h; simp at h
    | some k =>
      rw [hk] at h
      cases hrest : rest.mapM (fun nc => (chanKey nc).map (fun k => (nc, k))) with
      | none => rw [hrest] at h; simp at h
      | some keyedRest =>
        rw [hrest] at h
        simp only [Option.map_some', Option.some_bind, Option.bind_eq_bind,
          Option.pure_def, Option.some.injEq] at h
        subst h
        obtain ⟨ih1, ih2⟩ := ih keyedRest hrest
        constructor
        · simp [ih1]
        · intro p hp
          rcases List.mem_cons.mp hp with rfl | hmem
          · exact hk
          · exact ih2 p hmem

theorem processRecords_inv (fuel : Nat) (cfg : Config) :
    ∀ (rs : List Record) (acc out : List (String × Channel)),
      processRecords fuel cfg rs acc = some out →
      ((acc.map Prod.fst).Nodup → (out.map Prod.fst).Nodup)
        ∧ ((∀ n ∈ acc.map Prod.fst, n.length ≤ 16) → ∀ n ∈ out.map Prod.fst, n.length ≤ 16) := by
  intro rs
  induction rs with
  | nil =>
    intro acc out h
    simp only [processRecords, Option.some.injEq] at h
    subst h
    exact ⟨id, id⟩
  | cons r rest ih =>
    intro acc out h
    simp only [processRecords] at h
    by_cases hacc : accepts r = true
    · rw [if_pos hacc] at h
      split at h
      · exact Option.noConfusion h
      · rename_i n ch hd
        split at h
        · exact Option.noConfusion h
        · rename_i nm hdis
          obtain ⟨ihn, ihl⟩ := ih (acc ++ [(nm, ch)]) out h
          constructor
          · intro hnd
            apply ihn
            simp only [List.map_append, List.map_cons, List.map_nil]
            rw [List.nodup_append]
            refine ⟨hnd, List.nodup_singleton nm, ?_⟩
            intro a ha hb
            simp only [List.mem_singleton] at hb
            subst hb
            exact disambiguate_fresh fuel n (acc.map Prod.fst) (modeOf ch) a hdis ha
          · intro hlen
            apply ihl
            intro x hx
            simp only [List.map_append, List.map_cons, List.map_nil,
              List.mem_append, List.mem_singleton] at hx
            rcases hx with hx | rfl
            · exact hlen x hx
            · have hn16 : n.length ≤ 16 := by
                rw [deriveChannel_name cfg r n ch hd]
                exact proposedName_len r
              exact disambiguate_len fuel n (acc.map Prod.fst) (modeOf ch) x hn16 hdis
    · rw [if_neg hacc] at h
      exact ih acc out h

theorem processCustom_len (rows out : List CustomRow) (h : processCustom rows = some out) :
    ∀ cr ∈ out, cr.name.length ≤ 16 := by
  induction rows generalizing out with
  | nil =>
    simp only [processCustom, Option.some.injEq] at h
    subst h
    simp
  | cons r rest ih =>
    simp only [processCustom] at h
    split at h
    · exact Option.noConfusion h
    · cases hrest : processCustom rest with
      | none => rw [hrest] at h; exact Option.noConfusion h
      | some out' =>
        rw [hrest] at h
        simp only [Option.map_some', Option.some.injEq] at h
        subst h
        intro cr hcr
        rcases List.mem_cons.mp hcr with rfl | hmem
        · have h1 := pyStrip_length_le (r.name.data.take 16)
          have h2 : (r.name.data.take 16).length ≤ 16 := by
            rw [List.length_take]; omega
          simp only [length_mkString]
          omega
        · exact ih out' hrest cr hmem

theorem zoneAppend_spec (st : List (String × List String)) (key v : String)
    (hk : key ∈ st.map Prod.fst) :
    ∃ st', zoneAppend st key v = some st' ∧
      st'.map Prod.fst = st.map Prod.fst ∧
      zmembers st' key = zmembers st key ++ [v] ∧
      ∀ z, z ≠ key → zmembers st' z = zmembers st z := by
  induction st with
  | nil => simp at hk
  | cons p rest ih =>
    by_cases hp : p.1 = key
    · refine ⟨(p.1, p.2 ++ [v]) :: rest, ?_, by simp, ?_, ?_⟩
      · simp [zoneAppend, hp]
      · simp [zmembers, hp]
      · intro z hz
        have hpz : ¬ p.1 = z := by rw [hp]; exact fun hh => hz hh.symm
        simp [zmembers, hpz]
    · have hk' : key ∈ rest.map Prod.fst := by
        rcases List.mem_cons.mp hk with heq | hmem
        · exact absurd heq.symm hp
        · exact hmem
      obtain ⟨st', h1, h2, h3, h4⟩ := ih hk'
      refine ⟨p :: st', ?_, by simp [h2], ?_, ?_⟩
      · simp [zoneAppend, hp, h1]
      · simp [zmembers, hp, h3]
      · intro z hz
        by_cases hpz : p.1 = z
        · simp [zmembers, hpz]
        · simp [zmembers, hpz, h4 z hz]

theorem cycTaken_step (nm : String) (h : nm ∈ cycTaken) :
    nameStep ("DMR") nm ∈ cycTaken := by
  fin_cases h <;> decide

theorem cycTaken_diverges (fuel : Nat) (nm : String) (h : nm ∈ cycTaken) :
    disambiguate fuel nm cycTaken ("DMR") = none := by
  induction fuel generalizing nm with
  | zero => rfl
  | succ fuel ih =>
    simp only [disambiguate]
    rw [if_pos h]
    exact ih _ (cycTaken_step nm h)

/-! ### Claim theorems -/

/-- C9: the scenario record (district 3, FM repeater on band 2, callsign
SK3ØA, city Uppland /X, output 145.600, shift -0.600, access 67.0) passes the
filter and derives an Analogue channel named SK30A Uppland 2m with receive
frequency 145.600, transmit frequency 145.000, receive and transmit tone 67.0
and bandwidth 12.5 (the zero glyph fixed and the city truncated). -/
theorem C9_thm :
    accepts r9 = true ∧ deriveChannel cfg0 r9 = some (("SK30A Uppland 2m"), ch9) := by
  constructor
  · decide
  · decide

/-- C10: for every record that the filter accepts whose district field is not
a digit string, channel derivation hits an uncaught exception (the int() call
of line 101), so it produces no channel. -/
theorem C10_thm (cfg : Config) (r : Record)
    (hacc : accepts r = true)
    (hnd : ¬ r.district.data.all Char.isDigit = true) :
    deriveChannel cfg r = none := by
  have hlen : r.district.length = 1 := by
    simp only [accepts, Bool.and_eq_true, decide_eq_true_eq] at hacc
    exact hacc.1.1.1.1
  obtain ⟨c, hc⟩ : ∃ c, r.district.data = [c] := by
    have hlen2 : r.district.data.length = 1 := hlen
    cases hd : r.district.data with
    | nil => rw [hd] at hlen2; simp at hlen2
    | cons a t =>
      cases t with
      | nil => exact ⟨a, rfl⟩
      | cons b t2 => rw [hd] at hlen2; simp at hlen2
  have hcd : c.isDigit = false := by
    rcases hdd : c.isDigit with _ | _
    · rfl
    · exfalso
      apply hnd
      rw [hc]
      simp [hdd]
  have hpi : pyInt r.district = none := by
    simp only [pyInt, hc]
    split
    · rename_i rest heq
      injection heq with h1 h2
      subst h2
      rfl
    · rename_i rest heq
      injection heq with h1 h2
      subst h2
      rfl
    · have hnum : pyIsNumeric [c] = false := by
        simp [pyIsNumeric, hcd]
      rw [if_neg]
      simp [hnum]
  simp only [deriveChannel]
  split
  · rfl
  · rw [hpi]

/-- Witness for C10: the filter accepts the record with district X (a single
non-digit character), and derivation of that record aborts. -/
theorem C10_wit : accepts rX = true ∧ deriveChannel cfg0 rX = none :=
  ⟨by decide, C10_thm cfg0 rX (by decide) (by decide)⟩

/-- C8: the pipeline is a pure function of its inputs, so identical records,
custom rows and configuration produce identical channel and zone artifacts. -/
theorem C8_thm (fuel fuel2 : Nat) (cfg cfg2 : Config) (cu cu2 : Option (List CustomRow))
    (rs rs2 : List Record) (h1 : fuel = fuel2) (h2 : cfg = cfg2) (h3 : cu = cu2)
    (h4 : rs = rs2) :
    runAll fuel cfg cu rs = runAll fuel2 cfg2 cu2 rs2 := by
  subst h1
  subst h2
  subst h3
  subst h4
  rfl

/-- Witness for C8: two runs on the scenario inputs coincide. -/
theorem C8_wit : runAll 10 cfg0 none [r9, rB] = runAll 10 cfg0 none [r9, rB] :=
  C8_thm 10 10 cfg0 cfg0 none none [r9, rB] [r9, rB] rfl rfl rfl rfl

/-- C2 as stated is false: for the proposed name ABCDEFGHIJKLMN (fourteen
characters, no separators, no band token) and the six-name taken set
cycTaken, the cascade cycles through append mode letter, space to underscore,
to period, to hyphen, to slash, and the last-resort shortening recreates the
original name, so the loop of line 156 never exits for any number of
iterations. -/
theorem C2_cex :
    ("ABCDEFGHIJKLMN" : String) ∈ cycTaken ∧
      ¬ ∃ fuel r, disambiguate fuel ("ABCDEFGHIJKLMN") cycTaken ("DMR") = some r := by
  refine ⟨by decide, ?_⟩
  rintro ⟨fuel, r, h⟩
  rw [cycTaken_diverges fuel _ (by decide)] at h
  exact Option.noConfusion h

/-- C2 amended: whenever the disambiguation loop terminates it returns a name
outside the taken set, and a proposed name that is already free is returned
unchanged; termination itself does not hold for every finite taken set. -/
theorem C2_thm (fuel : Nat) (name : String) (taken : List String) (mode r : String)
    (h : disambiguate fuel name taken mode = some r) :
    r ∉ taken ∧ (name ∉ taken → r = name) := by
  refine ⟨disambiguate_fresh fuel name taken mode r h, ?_⟩
  intro hn
  cases fuel with
  | zero => exact Option.noConfusion h
  | succ fuel =>
    simp only [disambiguate] at h
    rw [if_neg hn] at h
    injection h with hh
    exact hh.symm

/-- Witness for C2: one collision on the name A resolves to A FM, which is
not in the taken set. -/
theorem C2_wit :
    ("A FM" : String) ∉ (["A"] : List String) ∧
      (("A" : String) ∉ (["A"] : List String) → ("A FM" : String) = ("A")) :=
  C2_thm 5 ("A") (["A"]) ("FM") ("A FM") (by decide)

/-- C3 as stated is false on malformed shifts that pass the numeric guard:
for the accepted record with transmit shift 1.2.3 (stripping dots and dashes
leaves 123, which is numeric) Decimal() raises and derivation aborts instead
of silently defaulting the shift to zero, while the empty shift does default
silently. -/
theorem C3_cex :
    accepts r3bad = true ∧ deriveChannel cfg0 r3bad = none ∧
      deriveChannel cfg0 ({ r3bad with tx_shift := "" }) =
        some (("SK30A Uppland 2m"), { ch9 with txFreq := "145.600" }) := by
  refine ⟨by decide, by decide, by decide⟩

/-- C3 amended: for every accepted record whose derivation completes, the
receive frequency is the output field verbatim; when the shift string passes
the numeric guard of line 108 it parses as a decimal and the transmit
frequency is the exact decimal sum; when the guard fails the shift is zero
and the transmit frequency is the decimal rendering of output plus zero.
Guard-passing strings that are not well-formed decimals abort derivation
instead (see the counterexample). -/
theorem C3_thm (cfg : Config) (r : Record) (n : String) (ch : Channel)
    (_hacc : accepts r = true)
    (h : deriveChannel cfg r = some (n, ch)) :
    ch.rxFreq = r.output ∧
    ∃ outDec, parseDec r.output = some outDec ∧
      (pyIsNumeric ((r.tx_shift.data.filter (fun c => c ≠ '.')).filter (fun c => c ≠ '-')) = true →
        ∃ offset, parseDec r.tx_shift = some offset ∧
          ch.txFreq = (Dec.add outDec offset).toStr) ∧
      (pyIsNumeric ((r.tx_shift.data.filter (fun c => c ≠ '.')).filter (fun c => c ≠ '-')) = false →
        ch.txFreq = (Dec.add outDec ⟨0, 0⟩).toStr) := by
  simp only [deriveChannel] at h
  split at h
  · exact Option.noConfusion h
  · split at h
    · exact Option.noConfusion h
    · split at h
      · rename_i offset outDec heq1 heq2
        simp only [Option.some.injEq, Prod.mk.injEq] at h
        obtain ⟨hn, hch⟩ := h
        subst hch
        constructor
        · repeat' split
          all_goals rfl
        · refine ⟨outDec, heq2, ?_, ?_⟩
          · intro hg
            rw [if_pos hg] at heq1
            refine ⟨offset, heq1, ?_⟩
            repeat' split
            all_goals rfl
          · intro hg
            have hcond : ¬ (pyIsNumeric ((r.tx_shift.data.filter (fun c => c ≠ '.')).filter
                (fun c => c ≠ '-')) = true) := by
              rw [hg]
              decide
            rw [if_neg hcond] at heq1
            injection heq1 with hoff
            subst hoff
            repeat' split
            all_goals rfl
      · exact Option.noConfusion h

/-- Witness for C3: the scenario record instantiates the amended statement;
its shift -0.600 passes the guard and the transmit frequency is the sum. -/
theorem C3_wit :
    ch9.rxFreq = r9.output ∧
    ∃ outDec, parseDec r9.output = some outDec ∧
      (pyIsNumeric ((r9.tx_shift.data.filter (fun c => c ≠ '.')).filter (fun c => c ≠ '-')) = true →
        ∃ offset, parseDec r9.tx_shift = some offset ∧
          ch9.txFreq = (Dec.add outDec offset).toStr) ∧
      (pyIsNumeric ((r9.tx_shift.data.filter (fun c => c ≠ '.')).filter (fun c => c ≠ '-')) = false →
        ch9.txFreq = (Dec.add outDec ⟨0, 0⟩).toStr) :=
  C3_thm cfg0 r9 ("SK30A Uppland 2m") ch9 (by decide) (by decide)

/-- C7: the validation of lines 30-41 tests the home argument with Python
truthiness, so home district 0 combined with a skip list is accepted even
though the help text declares the options mutually exclusive and the claim
expects a fatal halt; the run then proceeds with both mechanisms active in
the All Skip computation of line 143 (district 3 skipped by the list,
district 5 by the home test, district 0 kept).  A nonzero home district
together with a skip list is correctly rejected. -/
theorem C7_thm :
    validateArgs { home := some 0, allskip := some [3] } = true ∧
      validateArgs { home := some 3, allskip := some [5] } = false ∧
      validateArgs { home := some 9, allskip := none } = false ∧
      validateArgs { home := some 0, allskip := none } = true ∧
      allSkipFlag { home := some 0, allskip := some [3] } 3 = true ∧
      allSkipFlag { home := some 0, allskip := some [3] } 5 = true ∧
      allSkipFlag { home := some 0, allskip := some [3] } 0 = false := by
  decide

/-- C5 as stated is false at district numerals outside the catalog: the name
of row8 has the digit 8 at the district offset, so the claim requires
membership in SM8 zones, but the zone catalog of lines 203-210 has no SM8
keys and the lookup of line 223 raises KeyError, aborting the zone pass. -/
theorem C5_cex :
    (pyStripS row8.name).data.get? DN_OFF = some ('8') ∧ ('8').isDigit = true ∧
      zonePass [row8] = none := by
  refine ⟨by decide, by decide, by decide⟩

/-- C1 as stated is false across the custom rows: two identical custom rows
are ingested and emitted verbatim (lines 58-65 perform no name check), so the
emitted channel list carries the same channel name twice. -/
theorem C1_cex :
    runChannels 10 cfg0 (some [custDup, custDup]) [] = some ([custDup, custDup], []) ∧
      ¬ ((emittedRows [custDup, custDup] []).map (fun row => row.name)).Nodup := by
  constructor
  · decide
  · decide

/-! ### Zone artifact helpers -/

theorem countSemis_append (s t : String) :
    countSemis (s ++ t) = countSemis s + countSemis t := by
  simp [countSemis, String.data_append, List.filter_append]

theorem countSemis_semis (n : Nat) : countSemis (semis n) = n := by
  have hfilter : (List.replicate n ';').filter (fun c => c = ';') = List.replicate n ';' :=
    List.filter_eq_self.mpr (by
      intro a ha
      rw [List.eq_of_mem_replicate ha]
      decide)
  simp [countSemis, semis, hfilter]

theorem countSemis_joinSemi (l : List String) (hl : l ≠ [])
    (h0 : ∀ m ∈ l, countSemis m = 0) :
    countSemis (joinSemi l) = l.length - 1 := by
  induction l with
  | nil => cases hl rfl
  | cons s rest ih =>
    cases rest with
    | nil => simpa [joinSemi] using h0 s (by simp)
    | cons t rest2 =>
      have h1 : countSemis (joinSemi (t :: rest2)) = (t :: rest2).length - 1 :=
        ih (by simp) (fun m hm => h0 m (List.mem_cons_of_mem s hm))
      show countSemis (s ++ ";" ++ joinSemi (t :: rest2)) = (s :: t :: rest2).length - 1
      rw [countSemis_append, countSemis_append, h0 s (by simp), h1]
      have hsc : countSemis (";") = 1 := rfl
      rw [hsc]
      simp only [List.length_cons]
      omega

theorem zonesOut_filter (st : List (String × List String)) :
    zonesOut st = zonesOut (st.filter (fun p => !p.2.isEmpty)) := by
  have key : ∀ (st : List (String × List String)) (acc : String),
      st.foldl (fun acc p => if p.2.isEmpty then acc else acc ++ zoneRowStr p.1 p.2) acc =
      (st.filter (fun p => !p.2.isEmpty)).foldl
        (fun acc p => if p.2.isEmpty then acc else acc ++ zoneRowStr p.1 p.2) acc := by
    intro st
    induction st with
    | nil => intro acc; rfl
    | cons p rest ih =>
      intro acc
      rw [List.foldl_cons, List.filter_cons]
      by_cases hp : p.2.isEmpty = true
      · rw [if_pos hp]
        have hb : (!p.2.isEmpty) = false := by rw [hp]; rfl
        rw [hb]
        rw [if_neg (by decide)]
        exact ih acc
      · rw [if_neg hp]
        have hb : (!p.2.isEmpty) = true := by
          rcases hval : p.2.isEmpty with _ | _
          · rfl
          · exact absurd hval hp
        rw [hb]
        rw [if_pos rfl]
        rw [List.foldl_cons]
        rw [if_neg hp]
        exact ih (acc ++ zoneRowStr p.1 p.2)
  exact key st ""

set_option maxRecDepth 40000 in
/-- C6 as stated is false for zones beyond the capacity advisory: a zone with
81 members is still emitted (only a warning is printed), its row carries 81
semicolons, hence 82 fields, that is 81 channel slots rather than exactly 80
(the padding expression of line 256 degenerates to the empty string). -/
theorem C6_cex :
    zonesOut [(("SM0 Analogue"), List.replicate 81 ("X"))] =
        zoneRowStr ("SM0 Analogue") (List.replicate 81 ("X")) ∧
      countSemis (zoneRowStr ("SM0 Analogue") (List.replicate 81 ("X"))) = 81 := by
  constructor
  · decide
  · decide

/-- C6 amended: zones with zero members are omitted from the artifact, and
every emitted row of a zone with at most 80 members (none containing a
semicolon) consists of the zone name followed by exactly 80 channel slots: 80
semicolons, hence 81 fields, terminated by carriage-return line-feed.  Zones
with more than 80 members are emitted with all their members and no padding. -/
theorem C6_thm (st : List (String × List String)) (zname : String) (members : List String)
    (hne : members ≠ []) (hlen : members.length ≤ 80)
    (hsem : ∀ m ∈ members, countSemis m = 0) (hz : countSemis zname = 0) :
    zonesOut st = zonesOut (st.filter (fun p => !p.2.isEmpty)) ∧
      countSemis (zoneRowStr zname members) = 80 ∧
      (zoneRowStr zname members).data.drop ((zoneRowStr zname members).data.length - 2)
        = ['\r', '\n'] := by
  refine ⟨zonesOut_filter st, ?_, ?_⟩
  · have hjoin : countSemis (joinSemi (zname :: members)) = (zname :: members).length - 1 :=
      countSemis_joinSemi (zname :: members) (by simp)
        (by
          intro m hm
          rcases List.mem_cons.mp hm with rfl | hmem
          · exact hz
          · exact hsem m hmem)
    simp only [zoneRowStr, countSemis_append, hjoin, countSemis_semis]
    have hcr : countSemis ("\r\n") = 0 := rfl
    rw [hcr]
    simp only [List.length_cons]
    omega
  · have hcrlf : ("\r\n" : String).data = ['\r', '\n'] := rfl
    simp only [zoneRowStr]
    rw [String.data_append, hcrlf, List.length_append]
    have hlen2 : (joinSemi (zname :: members)
          ++ semis (81 - (zname :: members).length)).data.length
          + (['\r', '\n'] : List Char).length - 2 =
        (joinSemi (zname :: members) ++ semis (81 - (zname :: members).length)).data.length := by
      simp
    rw [hlen2]
    exact List.drop_left _ _

/-- Witness for C6: the one-member zone SM0 DMR yields a row with exactly 80
semicolons ending in carriage-return line-feed, and empty zones of the
initial catalog are omitted. -/
theorem C6_wit :
    zonesOut zonesInit = zonesOut (zonesInit.filter (fun p => !p.2.isEmpty)) ∧
      countSemis (zoneRowStr ("SM0 DMR") (["A"])) = 80 ∧
      (zoneRowStr ("SM0 DMR") (["A"])).data.drop
        ((zoneRowStr ("SM0 DMR") (["A"])).data.length - 2) = ['\r', '\n'] :=
  C6_thm zonesInit ("SM0 DMR") (["A"]) (by decide) (by decide) (by decide) (by decide)

theorem sortChannels_spec (gen sorted : List (String × Channel))
    (h : sortChannels gen = some sorted) :
    sorted.Perm gen ∧
    List.Pairwise (fun a b => ∀ ka kb, chanKey a = some ka → chanKey b = some kb →
        keyLt kb ka = false) sorted := by
  simp only [sortChannels] at h
  cases hm : gen.mapM (fun nc => (chanKey nc).map (fun k => (nc, k))) with
  | none => rw [hm] at h; exact Option.noConfusion h
  | some keyed =>
    rw [hm] at h
    injection h with hsorted
    subst hsorted
    obtain ⟨hfst, hkeys⟩ := mapM_chanKey gen keyed hm
    constructor
    · have hperm := insSort_perm (fun a b => keyLt a.2 b.2) keyed
      have hmap := hperm.map (Prod.fst)
      rwa [hfst] at hmap
    · have hpw := insSort_pairwise (fun a b => keyLt a.2 b.2)
        (fun a b hab => keyLt_asymm a.2 b.2 hab)
        (fun a b c hca => keyLt_conn a.2 b.2 c.2 hca)
        keyed
      have hmemkeys : ∀ p ∈ insSort (fun a b => keyLt a.2 b.2) keyed,
          chanKey p.1 = some p.2 := by
        intro p hp
        exact hkeys p ((insSort_perm _ keyed).mem_iff.mp hp)
      rw [List.pairwise_map]
      refine List.Pairwise.imp_of_mem ?_ hpw
      intro a b ha hb hab ka kb hka hkb
      have h1 : ka = a.2 := by
        rw [hmemkeys a ha] at hka
        injection hka with hh
        exact hh.symm
      have h2 : kb = b.2 := by
        rw [hmemkeys b hb] at hkb
        injection hkb with hh
        exact hh.symm
      subst h1
      subst h2
      exact hab

/-- C4: on a successful run the generated channels are emitted after all
external rows (which keep their original order), sorted ascending by the
composite key of channel type, district character and receive frequency as a
decimal (no later element is strictly below an earlier one in the Python
tuple order), with channel numbers 501, 502, ... strictly increasing, and the
emitted generated rows are a permutation of the registered channels. -/
theorem C4_thm (fuel : Nat) (cfg : Config) (cu : Option (List CustomRow)) (rs : List Record)
    (cust : List CustomRow) (genOut : List (Nat × String × Channel))
    (gen : List (String × Channel))
    (hrun : runChannels fuel cfg cu rs = some (cust, genOut))
    (hgen : processRecords fuel cfg rs [] = some gen) :
    genOut.map Prod.fst = List.range' 501 genOut.length ∧
    List.Pairwise (fun a b => a.1 < b.1) genOut ∧
    (genOut.map Prod.snd).Perm gen ∧
    List.Pairwise (fun a b => ∀ ka kb, chanKey a = some ka → chanKey b = some kb →
        keyLt kb ka = false) (genOut.map Prod.snd) ∧
    emittedRows cust genOut =
      cust.map (fun c => ⟨c.number, c.name, c.chType, c.rxFreq⟩)
        ++ genOut.map (fun t => ⟨Nat.repr t.1, t.2.1, t.2.2.chType, t.2.2.rxFreq⟩) := by
  simp only [runChannels] at hrun
  split at hrun
  · exact Option.noConfusion hrun
  · rename_i cust' hcust
    split at hrun
    · exact Option.noConfusion hrun
    · rename_i gen' hgen'
      split at hrun
      · exact Option.noConfusion hrun
      · rename_i sorted hsort
        simp only [Option.some.injEq, Prod.mk.injEq] at hrun
        obtain ⟨hc, hg⟩ := hrun
        subst hc
        have hgeq : gen' = gen := by
          rw [hgen'] at hgen
          injection hgen
        subst hgeq
        obtain ⟨hperm, hpw⟩ := sortChannels_spec gen' sorted hsort
        have hsnd : genOut.map Prod.snd = sorted := by
          rw [← hg]
          exact assignIds_map_snd 500 sorted
        have hlen : genOut.length = sorted.length := by
          have := congrArg List.length hsnd
          simpa using this
        refine ⟨?_, ?_, ?_, ?_, rfl⟩
        · rw [← hg, assignIds_map_fst, hg, hlen]
        · have h2 : (genOut.map Prod.fst).Pairwise (· < ·) := by
            rw [← hg, assignIds_map_fst]
            exact List.pairwise_lt_range' _ _
          rwa [List.pairwise_map] at h2
        · rw [hsnd]; exact hperm
        · rw [hsnd]; exact hpw

/-- Witness for C4: running the pipeline on the scenario record and the
digital 70cm record yields the Analogue channel numbered 501 before the
Digital channel numbered 502, after no external rows. -/
theorem C4_wit :
    ([(501, (("SK30A Uppland 2m") : String), ch9),
      (502, (("SK6BA Town 70cm") : String), chB)].map Prod.fst =
        List.range' 501 ([(501, (("SK30A Uppland 2m") : String), ch9),
          (502, (("SK6BA Town 70cm") : String), chB)].length)) ∧
    List.Pairwise (fun a b => a.1 < b.1)
      [(501, (("SK30A Uppland 2m") : String), ch9),
       (502, (("SK6BA Town 70cm") : String), chB)] ∧
    ([(501, (("SK30A Uppland 2m") : String), ch9),
      (502, (("SK6BA Town 70cm") : String), chB)].map Prod.snd).Perm
      [((("SK30A Uppland 2m") : String), ch9), ((("SK6BA Town 70cm") : String), chB)] ∧
    List.Pairwise (fun a b => ∀ ka kb, chanKey a = some ka → chanKey b = some kb →
        keyLt kb ka = false)
      ([(501, (("SK30A Uppland 2m") : String), ch9),
        (502, (("SK6BA Town 70cm") : String), chB)].map Prod.snd) ∧
    emittedRows [] [(501, (("SK30A Uppland 2m") : String), ch9),
        (502, (("SK6BA Town 70cm") : String), chB)] =
      ([] : List CustomRow).map (fun c => ⟨c.number, c.name, c.chType, c.rxFreq⟩)
        ++ [(501, (("SK30A Uppland 2m") : String), ch9),
            (502, (("SK6BA Town 70cm") : String), chB)].map
            (fun t => ⟨Nat.repr t.1, t.2.1, t.2.2.chType, t.2.2.rxFreq⟩) :=
  C4_thm 20 cfg0 none [r9, rB] []
    [(501, (("SK30A Uppland 2m") : String), ch9), (502, (("SK6BA Town 70cm") : String), chB)]
    [((("SK30A Uppland 2m") : String), ch9), ((("SK6BA Town 70cm") : String), chB)]
    (by decide) (by decide)

/-- C1 amended: on a successful run every emitted channel name (external and
generated alike) has at most 16 characters and the generated names are
pairwise distinct; uniqueness across the whole emitted list fails because
custom rows are never checked against anything (see the counterexample). -/
theorem C1_thm (fuel : Nat) (cfg : Config) (cu : Option (List CustomRow)) (rs : List Record)
    (cust : List CustomRow) (genOut : List (Nat × String × Channel))
    (hrun : runChannels fuel cfg cu rs = some (cust, genOut)) :
    (∀ row ∈ emittedRows cust genOut, row.name.length ≤ 16) ∧
      ((genOut.map (fun t => t.2.1)).Nodup) := by
  simp only [runChannels] at hrun
  split at hrun
  · exact Option.noConfusion hrun
  · rename_i cust' hcust
    split at hrun
    · exact Option.noConfusion hrun
    · rename_i gen hgen
      split at hrun
      · exact Option.noConfusion hrun
      · rename_i sorted hsort
        simp only [Option.some.injEq, Prod.mk.injEq] at hrun
        obtain ⟨hc, hg⟩ := hrun
        subst hc
        have hcustlen : ∀ cr ∈ cust', cr.name.length ≤ 16 := by
          cases cu with
          | none =>
            have hnil : cust' = [] := by
              injection hcust with hh
              exact hh.symm
            subst hnil
            intro cr hcr
            cases hcr
          | some rows => exact processCustom_len rows cust' hcust
        have hinv := processRecords_inv fuel cfg rs [] gen hgen
        have hnodup : (gen.map Prod.fst).Nodup := hinv.1 (by simp)
        have hlen16 : ∀ n ∈ gen.map Prod.fst, n.length ≤ 16 := hinv.2 (by simp)
        obtain ⟨hperm, _⟩ := sortChannels_spec gen sorted hsort
        have hsnd : genOut.map Prod.snd = sorted := by
          rw [← hg]
          exact assignIds_map_snd 500 sorted
        have hnames : genOut.map (fun t => t.2.1) = sorted.map Prod.fst := by
          rw [← hsnd, List.map_map]
          rfl
        have hpermNames : (genOut.map (fun t => t.2.1)).Perm (gen.map Prod.fst) := by
          rw [hnames]
          exact hperm.map Prod.fst
        constructor
        · intro row hrow
          simp only [emittedRows, List.mem_append, List.mem_map] at hrow
          rcases hrow with ⟨c, hc2, rfl⟩ | ⟨t, ht, rfl⟩
          · exact hcustlen c hc2
          · apply hlen16
            exact hpermNames.subset (List.mem_map_of_mem _ ht)
        · exact hpermNames.nodup_iff.mpr hnodup

/-- Witness for C1: the two-record run emits names SK30A Uppland 2m and SK6BA
Town 70cm, both within 16 characters and distinct. -/
theorem C1_wit :
    (∀ row ∈ emittedRows []
        [(501, (("SK30A Uppland 2m") : String), ch9),
         (502, (("SK6BA Town 70cm") : String), chB)], row.name.length ≤ 16) ∧
      (([(501, (("SK30A Uppland 2m") : String), ch9),
         (502, (("SK6BA Town 70cm") : String), chB)].map (fun t => t.2.1)).Nodup) :=
  C1_thm 20 cfg0 none [r9, rB] []
    [(501, (("SK30A Uppland 2m") : String), ch9), (502, (("SK6BA Town 70cm") : String), chB)]
    (by decide)

/-- C5 amended: for an emitted row whose stripped name has a character d at
the district offset, when d is one of the digits 0 to 7 the zone pass appends
the name to zone SM d with the mode label and to zone SM d All Channels, and
for digital rows additionally to All 2m DMR when the receive frequency starts
with 1 and to All 70cm DMR when it starts with 4; when d is not a digit the
row joins no zone and the state is unchanged.  For numeric district
characters outside 0 to 7 the pass aborts with KeyError instead (see the
counterexample). -/
theorem C5_thm (st : List (String × List String)) (row : EmitRow) (d : Char)
    (hkeys : st.map Prod.fst = zonesInit.map Prod.fst)
    (hd2 : (pyStripS row.name).data.get? DN_OFF = some d) :
    (d ∈ [('0'), ('1'), ('2'), ('3'), ('4'), ('5'), ('6'), ('7')] →
      (containsSub row.chType ("Digital") = false →
        ∃ st', zoneStep st row = some st' ∧
          zmembers st' ("SM" ++ ⟨[d]⟩ ++ " " ++ ("Analogue")) =
            zmembers st ("SM" ++ ⟨[d]⟩ ++ " " ++ ("Analogue")) ++ [pyStripS row.name] ∧
          zmembers st' ("SM" ++ ⟨[d]⟩ ++ " All Channels") =
            zmembers st ("SM" ++ ⟨[d]⟩ ++ " All Channels") ++ [pyStripS row.name]) ∧
      (containsSub row.chType ("Digital") = true →
        ∀ c crest, row.rxFreq.data = c :: crest →
          ∃ st', zoneStep st row = some st' ∧
            zmembers st' ("SM" ++ ⟨[d]⟩ ++ " " ++ ("DMR")) =
              zmembers st ("SM" ++ ⟨[d]⟩ ++ " " ++ ("DMR")) ++ [pyStripS row.name] ∧
            zmembers st' ("SM" ++ ⟨[d]⟩ ++ " All Channels") =
              zmembers st ("SM" ++ ⟨[d]⟩ ++ " All Channels") ++ [pyStripS row.name] ∧
            (c = '1' → zmembers st' ("All 2m DMR") =
              zmembers st ("All 2m DMR") ++ [pyStripS row.name]) ∧
            (c = '4' → zmembers st' ("All 70cm DMR") =
              zmembers st ("All 70cm DMR") ++ [pyStripS row.name]))) ∧
    (d.isDigit = false → zoneStep st row = some st) := by
  constructor
  · intro hd
    have hdig : d.isDigit = true := by fin_cases hd <;> decide
    constructor
    · intro hmode
      have hm1 : ("SM" ++ ⟨[d]⟩ ++ " " ++ ("Analogue")) ∈ st.map Prod.fst := by
        rw [hkeys]
        fin_cases hd <;> decide
      obtain ⟨st1, ha1, hk1, he1, hp1⟩ := zoneAppend_spec st _ (pyStripS row.name) hm1
      have hm2 : ("SM" ++ ⟨[d]⟩ ++ " All Channels") ∈ st1.map Prod.fst := by
        rw [hk1, hkeys]
        fin_cases hd <;> decide
      obtain ⟨st2, ha2, hk2, he2, hp2⟩ := zoneAppend_spec st1 _ (pyStripS row.name) hm2
      have hne12 : ("SM" ++ ⟨[d]⟩ ++ " All Channels") ≠
          ("SM" ++ ⟨[d]⟩ ++ " " ++ ("Analogue")) := by
        intro heq
        have hdata := congrArg String.data heq
        simp [String.data_append] at hdata
      refine ⟨st2, ?_, ?_, ?_⟩
      · simp only [zoneStep, hd2, hdig, hmode, Bool.false_eq_true, if_false, if_true,
          ha1, ha2]
        rw [if_neg (by decide)]
      · rw [hp2 _ (Ne.symm hne12), he1]
      · rw [he2, hp1 _ hne12]
    · intro hmode c crest hrx
      have hget : row.rxFreq.data.get? 0 = some c := by rw [hrx]; rfl
      have hm1 : ("SM" ++ ⟨[d]⟩ ++ " " ++ ("DMR")) ∈ st.map Prod.fst := by
        rw [hkeys]
        fin_cases hd <;> decide
      obtain ⟨st1, ha1, hk1, he1, hp1⟩ := zoneAppend_spec st _ (pyStripS row.name) hm1
      have hm2 : ("SM" ++ ⟨[d]⟩ ++ " All Channels") ∈ st1.map Prod.fst := by
        rw [hk1, hkeys]
        fin_cases hd <;> decide
      obtain ⟨st2, ha2, hk2, he2, hp2⟩ := zoneAppend_spec st1 _ (pyStripS row.name) hm2
      have hne12 : ("SM" ++ ⟨[d]⟩ ++ " All Channels") ≠
          ("SM" ++ ⟨[d]⟩ ++ " " ++ ("DMR")) := by
        intro heq
        have hdata := congrArg String.data heq
        simp [String.data_append] at hdata
      have hne2m1 : ("All 2m DMR") ≠ ("SM" ++ ⟨[d]⟩ ++ " " ++ ("DMR")) := by
        intro heq
        have hdata := congrArg String.data heq
        simp [String.data_append] at hdata
      have hne2m2 : ("All 2m DMR") ≠ ("SM" ++ ⟨[d]⟩ ++ " All Channels") := by
        intro heq
        have hdata := congrArg String.data heq
        simp [String.data_append] at hdata
      have hne7m1 : ("All 70cm DMR") ≠ ("SM" ++ ⟨[d]⟩ ++ " " ++ ("DMR")) := by
        intro heq
        have hdata := congrArg String.data heq
        simp [String.data_append] at hdata
      have hne7m2 : ("All 70cm DMR") ≠ ("SM" ++ ⟨[d]⟩ ++ " All Channels") := by
        intro heq
        have hdata := congrArg String.data heq
        simp [String.data_append] at hdata
      by_cases hc1 : c = '1'
      · subst hc1
        have hm3 : ("All 2m DMR") ∈ st2.map Prod.fst := by
          rw [hk2, hk1, hkeys]
          decide
        obtain ⟨st3, ha3, hk3, he3, hp3⟩ := zoneAppend_spec st2 _ (pyStripS row.name) hm3
        refine ⟨st3, ?_, ?_, ?_, ?_, ?_⟩
        · simp only [zoneStep, hd2, hdig, hmode, if_true, if_false, ha1, ha2, hget, ha3]
          rw [if_neg (by decide)]
        · rw [hp3 _ (Ne.symm hne2m1), hp2 _ (Ne.symm hne12), he1]
        · rw [hp3 _ (Ne.symm hne2m2), he2, hp1 _ hne12]
        · intro _
          rw [he3, hp2 _ hne2m2, hp1 _ hne2m1]
        · intro habs
          exact absurd habs (by decide)
      · by_cases hc4 : c = '4'
        · subst hc4
          have hm4 : ("All 70cm DMR") ∈ st2.map Prod.fst := by
            rw [hk2, hk1, hkeys]
            decide
          obtain ⟨st4, ha4, hk4, he4, hp4⟩ := zoneAppend_spec st2 _ (pyStripS row.name) hm4
          refine ⟨st4, ?_, ?_, ?_, ?_, ?_⟩
          · simp only [zoneStep, hd2, hdig, hmode, if_true, if_false, ha1, ha2, hget, ha4]
            rw [if_neg (by decide)]
            simp [ha4]
          · rw [hp4 _ (Ne.symm hne7m1), hp2 _ (Ne.symm hne12), he1]
          · rw [hp4 _ (Ne.symm hne7m2), he2, hp1 _ hne12]
          · intro habs
            exact absurd habs (by decide)
          · intro _
            rw [he4, hp2 _ hne7m2, hp1 _ hne7m1]
        · refine ⟨st2, ?_, ?_, ?_, ?_, ?_⟩
          · simp only [zoneStep, hd2, hdig, hmode, if_true, if_false, hc1, hc4,
              ha1, ha2, hget]
          · rw [hp2 _ (Ne.symm hne12), he1]
          · rw [he2, hp1 _ hne12]
          · intro habs
            exact absurd habs hc1
          · intro habs
            exact absurd habs hc4
  · intro hndig
    simp only [zoneStep, hd2, hndig, Bool.false_eq_true, if_false]

/-- Witness for C5: the digital 70cm row with district character 6 lands in
SM6 DMR, SM6 All Channels and All 70cm DMR starting from the initial zone
state. -/
theorem C5_wit :
    (('6' : Char) ∈ [('0'), ('1'), ('2'), ('3'), ('4'), ('5'), ('6'), ('7')] →
      (containsSub rowB.chType ("Digital") = false →
        ∃ st', zoneStep zonesInit rowB = some st' ∧
          zmembers st' ("SM" ++ ⟨['6']⟩ ++ " " ++ ("Analogue")) =
            zmembers zonesInit ("SM" ++ ⟨['6']⟩ ++ " " ++ ("Analogue")) ++ [pyStripS rowB.name] ∧
          zmembers st' ("SM" ++ ⟨['6']⟩ ++ " All Channels") =
            zmembers zonesInit ("SM" ++ ⟨['6']⟩ ++ " All Channels") ++ [pyStripS rowB.name]) ∧
      (containsSub rowB.chType ("Digital") = true →
        ∀ c crest, rowB.rxFreq.data = c :: crest →
          ∃ st', zoneStep zonesInit rowB = some st' ∧
            zmembers st' ("SM" ++ ⟨['6']⟩ ++ " " ++ ("DMR")) =
              zmembers zonesInit ("SM" ++ ⟨['6']⟩ ++ " " ++ ("DMR")) ++ [pyStripS rowB.name] ∧
            zmembers st' ("SM" ++ ⟨['6']⟩ ++ " All Channels") =
              zmembers zonesInit ("SM" ++ ⟨['6']⟩ ++ " All Channels") ++ [pyStripS rowB.name] ∧
            (c = '1' → zmembers st' ("All 2m DMR") =
              zmembers zonesInit ("All 2m DMR") ++ [pyStripS rowB.name]) ∧
            (c = '4' → zmembers st' ("All 70cm DMR") =
              zmembers zonesInit ("All 70cm DMR") ++ [pyStripS rowB.name]))) ∧
    (('6' : Char).isDigit = false → zoneStep zonesInit rowB = some zonesInit) :=
  C5_thm zonesInit rowB '6' rfl (by decide)
